import Mathlib

/-!
Verification of the servicerestarter supervisor against its design document.

The development shallowly embeds the three core components of the program:

* `src/wait_stopper.rs` — the cooperative cancellation primitive
  (`StopResult`, `WaitStopper`, `wait_until_stop_timeout`, `stop`,
  `wait_until_stop_timeout_opt`);
* `src/registry.rs` — the registry value codec (`RegistryValue`,
  `to_reg_value_type`, `to_bytes`, `decode_raw` and the byte-level helpers
  `os_str_to_bytes`, `bytes_to_os_string`, `bytes_to_multi_os_string`);
* `src/main.rs` (`run`, lines 98–137) — one `EnsuringServices` pass of the
  supervision loop, together with the service-manager access bits from
  `src/service_control.rs`.

Machine integers are modelled as `Nat` with explicit `% 2^w` arithmetic:
a Windows wide string (`OsString` on the `windows` target) is a list of
16-bit code units, a byte buffer is a list of byte values.  Rust functions
that can `panic!` are embedded as `Option`-returning functions where the
panic is `Option.none`.
-/

/-! ## Wide strings and byte-level helpers (src/registry.rs) -/

/-- A Windows `OsString`: a sequence of 16-bit code units (each `< 2^16`). -/
abbrev OsString := List Nat

/-- `u16::to_ne_bytes` on the program's only target (little endian). -/
def u16_to_ne_bytes (w : Nat) : List Nat :=
  [w % 256, w / 256 % 256]

/-- `u32::to_le_bytes`. -/
def u32_to_le_bytes (n : Nat) : List Nat :=
  [n % 256, n / 256 % 256, n / 65536 % 256, n / 16777216 % 256]

/-- `u32::to_be_bytes`. -/
def u32_to_be_bytes (n : Nat) : List Nat :=
  [n / 16777216 % 256, n / 65536 % 256, n / 256 % 256, n % 256]

/-- `u64::to_le_bytes`. -/
def u64_to_le_bytes (n : Nat) : List Nat :=
  [n % 256, n / 256 % 256, n / 65536 % 256, n / 16777216 % 256,
   n / 4294967296 % 256, n / 1099511627776 % 256,
   n / 281474976710656 % 256, n / 72057594037927936 % 256]

/-- `u32::from_le_bytes(bs.try_into()?)`: requires exactly four bytes,
as in `RegistryValue::decode_raw` (a wrong length is a panic there). -/
def u32_from_le_bytes : List Nat → Option Nat
  | [b0, b1, b2, b3] => some (b0 + 256 * b1 + 65536 * b2 + 16777216 * b3)
  | _ => Option.none

/-- `u32::from_be_bytes(bs.try_into()?)`: requires exactly four bytes. -/
def u32_from_be_bytes : List Nat → Option Nat
  | [b0, b1, b2, b3] => some (b3 + 256 * b2 + 65536 * b1 + 16777216 * b0)
  | _ => Option.none

/-- `u64::from_le_bytes(bs.try_into()?)`: requires exactly eight bytes. -/
def u64_from_le_bytes : List Nat → Option Nat
  | [b0, b1, b2, b3, b4, b5, b6, b7] =>
      some (b0 + 256 * b1 + 65536 * b2 + 16777216 * b3 +
            4294967296 * b4 + 1099511627776 * b5 +
            281474976710656 * b6 + 72057594037927936 * b7)
  | _ => Option.none

/-- `os_str_to_bytes` (registry.rs): encode the code units, append one
terminating NUL unit, then serialise every unit to its two bytes. -/
def os_str_to_bytes (s : OsString) : List Nat :=
  (s ++ [0]).flatMap u16_to_ne_bytes

/-- The pairing loop shared by `bytes_to_os_string` and
`bytes_to_multi_os_string`: rebuild 16-bit units from consecutive byte
pairs (the callers have already checked that the length is even). -/
def bytes_to_words : List Nat → List Nat
  | b0 :: b1 :: rest => (b0 + 256 * b1) :: bytes_to_words rest
  | _ => []

/-- `bytes_to_os_string` (registry.rs): odd byte lengths are a panic;
otherwise pair the bytes into units and strip a single trailing NUL. -/
def bytes_to_os_string (bs : List Nat) : Option OsString :=
  if bs.length % 2 ≠ 0 then Option.none
  else
    some (if (bytes_to_words bs).getLast? = some 0
          then (bytes_to_words bs).dropLast
          else bytes_to_words bs)

/-- `ws.split(|w| *w == 0x0000)` on a slice of 16-bit units: the pieces
between NUL separators, in order (`n` separators give `n + 1` pieces). -/
def split_on_zero : List Nat → List (List Nat)
  | [] => [[]]
  | w :: rest =>
    if w = 0 then [] :: split_on_zero rest
    else
      match split_on_zero rest with
      | s :: ss => (w :: s) :: ss
      | [] => [[w]]

/-- The collection loop of `bytes_to_multi_os_string`: keep pieces until
the first empty one (`if slice.len() == 0 { break; }`). -/
def take_nonempty : List (List Nat) → List (List Nat)
  | [] => []
  | s :: rest => if s.length = 0 then [] else s :: take_nonempty rest

/-- `bytes_to_multi_os_string` (registry.rs): odd byte lengths are a
panic; otherwise split the units on NUL and collect the pieces up to the
first empty one. -/
def bytes_to_multi_os_string (bs : List Nat) : Option (List OsString) :=
  if bs.length % 2 ≠ 0 then Option.none
  else some (take_nonempty (split_on_zero (bytes_to_words bs)))

/-! ## The registry value type and its codec (src/registry.rs) -/

/-- `RegistryValue`: the tagged union of raw registry values. -/
inductive RegistryValue
  | none (bs : List Nat)
  | string (s : OsString)
  | expandString (unexpanded : OsString) (expanded : OsString)
  | binary (bs : List Nat)
  | dword (dw : Nat)
  | dwordBigEndian (dw : Nat)
  | link (s : OsString)
  | multiString (ss : List OsString)
  | resourceList (bs : List Nat)
  | fullResourceDescriptor (bs : List Nat)
  | resourceRequirementsList (bs : List Nat)
  | qword (qw : Nat)
  deriving DecidableEq, Repr

/-- Windows registry type tags (`REG_NONE` … `REG_QWORD`). -/
def REG_NONE : Nat := 0
def REG_SZ : Nat := 1
def REG_EXPAND_SZ : Nat := 2
def REG_BINARY : Nat := 3
def REG_DWORD : Nat := 4
def REG_DWORD_BIG_ENDIAN : Nat := 5
def REG_LINK : Nat := 6
def REG_MULTI_SZ : Nat := 7
def REG_RESOURCE_LIST : Nat := 8
def REG_FULL_RESOURCE_DESCRIPTOR : Nat := 9
def REG_RESOURCE_REQUIREMENTS_LIST : Nat := 10
def REG_QWORD : Nat := 11

/-- `RegistryValue::to_reg_value_type`. -/
def RegistryValue.to_reg_value_type : RegistryValue → Nat
  | .none _ => REG_NONE
  | .string _ => REG_SZ
  | .expandString _ _ => REG_EXPAND_SZ
  | .binary _ => REG_BINARY
  | .dword _ => REG_DWORD
  | .dwordBigEndian _ => REG_DWORD_BIG_ENDIAN
  | .link _ => REG_LINK
  | .multiString _ => REG_MULTI_SZ
  | .resourceList _ => REG_RESOURCE_LIST
  | .fullResourceDescriptor _ => REG_FULL_RESOURCE_DESCRIPTOR
  | .resourceRequirementsList _ => REG_RESOURCE_REQUIREMENTS_LIST
  | .qword _ => REG_QWORD

/-- The `MultiString` encoding loop of `RegistryValue::to_bytes`: for each
element, first panic if it contains a NUL unit, then panic if it is empty,
otherwise append the element followed by one NUL separator. -/
def multi_string_words : List OsString → Option (List Nat)
  | [] => some []
  | s :: rest =>
    if 0 ∈ s then Option.none
    else if s.length = 0 then Option.none
    else (multi_string_words rest).map (fun ws => s ++ 0 :: ws)

/-- `RegistryValue::to_bytes`.  The `MultiString` arm can panic (modelled
as `Option.none`); every other arm is total. -/
def RegistryValue.to_bytes : RegistryValue → Option (List Nat)
  | .none bs => some bs
  | .string s => some (os_str_to_bytes s)
  | .expandString unexpanded _ => some (os_str_to_bytes unexpanded)
  | .binary bs => some bs
  | .dword dw => some (u32_to_le_bytes dw)
  | .dwordBigEndian dw => some (u32_to_be_bytes dw)
  | .link s => some (os_str_to_bytes s)
  | .multiString ss =>
      (multi_string_words ss).map (fun ws => (ws ++ [0]).flatMap u16_to_ne_bytes)
  | .resourceList bs => some bs
  | .fullResourceDescriptor bs => some bs
  | .resourceRequirementsList bs => some bs
  | .qword qw => some (u64_to_le_bytes qw)

/-- `os_string_to_expand_value` (registry.rs): an empty string expands to
itself; otherwise the host environment-expansion call is performed
(parametrised here as `expand_env`, `Option.none` being its panic). -/
def os_string_to_expand_value (expand_env : OsString → Option OsString)
    (s : OsString) : Option RegistryValue :=
  if s.length = 0 then some (RegistryValue.expandString s s)
  else (expand_env s).map (fun e => RegistryValue.expandString s e)

/-- `RegistryValue::decode_raw`.  Panics (unknown tag, wrong payload
length, failed expansion) are modelled as `Option.none`. -/
def RegistryValue.decode_raw (expand_env : OsString → Option OsString)
    (reg_value_type : Nat) (bs : List Nat) : Option RegistryValue :=
  if reg_value_type = REG_NONE then some (RegistryValue.none bs)
  else if reg_value_type = REG_SZ then
    (bytes_to_os_string bs).map RegistryValue.string
  else if reg_value_type = REG_EXPAND_SZ then
    (bytes_to_os_string bs).bind (os_string_to_expand_value expand_env)
  else if reg_value_type = REG_BINARY then some (RegistryValue.binary bs)
  else if reg_value_type = REG_DWORD then
    (u32_from_le_bytes bs).map RegistryValue.dword
  else if reg_value_type = REG_DWORD_BIG_ENDIAN then
    (u32_from_be_bytes bs).map RegistryValue.dwordBigEndian
  else if reg_value_type = REG_LINK then
    (bytes_to_os_string bs).map RegistryValue.link
  else if reg_value_type = REG_MULTI_SZ then
    (bytes_to_multi_os_string bs).map RegistryValue.multiString
  else if reg_value_type = REG_RESOURCE_LIST then
    some (RegistryValue.resourceList bs)
  else if reg_value_type = REG_FULL_RESOURCE_DESCRIPTOR then
    some (RegistryValue.fullResourceDescriptor bs)
  else if reg_value_type = REG_RESOURCE_REQUIREMENTS_LIST then
    some (RegistryValue.resourceRequirementsList bs)
  else if reg_value_type = REG_QWORD then
    (u64_from_le_bytes bs).map RegistryValue.qword
  else Option.none

/-- Well-formedness of a `RegistryValue` as the Rust types guarantee it:
code units fit in a `u16`, `Dword`/`Qword` payloads fit their width, and
`MultiString` elements are non-empty and NUL-free. -/
def osstr_wf (s : OsString) : Bool :=
  s.all (fun w => decide (w < 65536))

def RegistryValue.wellFormed : RegistryValue → Bool
  | .none _ => true
  | .string s => osstr_wf s
  | .expandString unexpanded expanded => osstr_wf unexpanded && osstr_wf expanded
  | .binary _ => true
  | .dword dw => decide (dw < 4294967296)
  | .dwordBigEndian dw => decide (dw < 4294967296)
  | .link s => osstr_wf s
  | .multiString ss =>
      ss.all (fun s => osstr_wf s && decide (s ≠ []) && decide (0 ∉ s))
  | .resourceList _ => true
  | .fullResourceDescriptor _ => true
  | .resourceRequirementsList _ => true
  | .qword qw => decide (qw < 18446744073709551616)

/-- Discriminator for the `ExpandString` variant. -/
def RegistryValue.is_expand_string : RegistryValue → Bool
  | .expandString _ _ => true
  | _ => false

/-- Specification-side reading of the `TextList` decode contract: take the
segment of 16-bit units up to the next terminator; stop at the first empty
segment, otherwise collect it and continue after the terminator.
(Fuel-indexed so that it is structurally recursive; `spec_collect` below
supplies sufficient fuel.) -/
def spec_collect_fuel : Nat → List Nat → List (List Nat)
  | 0, _ => []
  | fuel + 1, ws =>
    if (ws.takeWhile (fun w => decide (w ≠ 0))).length = 0 then []
    else
      ws.takeWhile (fun w => decide (w ≠ 0)) ::
        spec_collect_fuel fuel
          (ws.drop ((ws.takeWhile (fun w => decide (w ≠ 0))).length + 1))

/-- Specification-side `TextList` segment collection (see
`spec_collect_fuel`). -/
def spec_collect (ws : List Nat) : List (List Nat) :=
  spec_collect_fuel ws.length ws

/-! ## The cancellation primitive (src/wait_stopper.rs)

The shared state is the `StopResult` flag behind the mutex.  The
nondeterminism of the two-thread execution is made explicit: a call to
`wait_until_stop_timeout` takes, besides the timeout, the environment
facts "a concurrent `stop()` lands while this call is blocked"
(`stop_during`) and the instant at which the condition variable is
notified (`wake_elapsed`).  A wait that finds the flag already set
returns at once (elapsed time `0`); otherwise it blocks and returns
either at the notification (bounded by the timeout) or at the timeout. -/

/-- `StopResult` (wait_stopper.rs). -/
structure StopResult where
  wants_to_stop : Bool
  deriving DecidableEq, Repr

/-- `StopResult::new_wants_to_stop`. -/
def StopResult.new_wants_to_stop : StopResult := { wants_to_stop := true }

/-- `StopResult::new_does_not_want_to_stop`. -/
def StopResult.new_does_not_want_to_stop : StopResult := { wants_to_stop := false }

/-- `WaitStopper`: the mutex-guarded stop flag (the condition variable
carries no state of its own). -/
structure WaitStopper where
  mutex : StopResult
  deriving DecidableEq, Repr

/-- `WaitStopper::new`. -/
def WaitStopper.new : WaitStopper :=
  { mutex := StopResult.new_does_not_want_to_stop }

/-- What one `wait` call reports: the `StopResult` it returns and how much
of its timeout elapsed before it returned. -/
structure WaitOutcome where
  result : StopResult
  elapsed : Nat
  deriving DecidableEq, Repr

/-- `WaitStopper::wait_until_stop_timeout`: if the flag is already set,
return it immediately; otherwise block on the condition variable until a
concurrent `stop()` notifies (at `wake_elapsed`, within the timeout) or
the timeout elapses, then return the flag as it then stands.  The second
component is the stopper state at the time the call returns. -/
def WaitStopper.wait_until_stop_timeout (ws : WaitStopper) (timeout : Nat)
    (stop_during : Bool) (wake_elapsed : Nat) : WaitOutcome × WaitStopper :=
  if ws.mutex.wants_to_stop then
    ({ result := ws.mutex, elapsed := 0 }, ws)
  else
    ({ result := { wants_to_stop := stop_during },
       elapsed := if stop_during then min wake_elapsed timeout else timeout },
     { mutex := { wants_to_stop := stop_during } })

/-- `WaitStopper::stop`: set the flag (and notify all waiters). -/
def WaitStopper.stop (_ws : WaitStopper) : WaitStopper :=
  { mutex := StopResult.new_wants_to_stop }

/-- `WaitStopper::wait_until_stop_timeout_opt`: with a stopper, delegate;
without one, `thread::sleep` for the full timeout and report "does not
want to stop". -/
def WaitStopper.wait_until_stop_timeout_opt (stopper : Option WaitStopper)
    (timeout : Nat) (stop_during : Bool) (wake_elapsed : Nat) : WaitOutcome :=
  match stopper with
  | some s => (s.wait_until_stop_timeout timeout stop_during wake_elapsed).1
  | Option.none =>
      { result := StopResult.new_does_not_want_to_stop, elapsed := timeout }

/-- One operation applied to a `WaitStopper` instance: a `stop()` call, or
a `wait` call with its timeout and its environment facts. -/
inductive ClockOp
  | stop
  | wait (timeout : Nat) (stop_during : Bool) (wake_elapsed : Nat)
  deriving DecidableEq, Repr

/-- Run a sequence of operations against one `WaitStopper` instance,
collecting the outcome of every `wait` call in order. -/
def run_clock : WaitStopper → List ClockOp → WaitStopper × List WaitOutcome
  | ws, [] => (ws, [])
  | ws, ClockOp.stop :: rest => run_clock ws.stop rest
  | ws, ClockOp.wait t d w :: rest =>
    ((run_clock (ws.wait_until_stop_timeout t d w).2 rest).1,
     (ws.wait_until_stop_timeout t d w).1 ::
       (run_clock (ws.wait_until_stop_timeout t d w).2 rest).2)

/-! ## One supervision pass (src/main.rs, `run`, lines 98–137)

The pass is modelled as a function from its environment — the result of
the `ServicesExpectedRunning` registry read, whether the service control
manager connect succeeds, and each watched service's behaviour — to the
list of service-manager calls it makes, in order, together with whether it
runs to completion or dies on a `log_panic!`.  Handles are numbered in the
order the services are opened. -/

/-- `SERVICE_QUERY_STATUS` access right. -/
def SERVICE_QUERY_STATUS : Nat := 4

/-- `SERVICE_START` access right. -/
def SERVICE_START : Nat := 16

/-- `SERVICE_STOP` access right. -/
def SERVICE_STOP : Nat := 32

/-- The access mask `run` requests when opening a watched service:
`ServicePermissions::QUERY_STATUS | ServicePermissions::STOP`. -/
def service_perms : Nat := SERVICE_QUERY_STATUS ||| SERVICE_STOP

/-- `ServiceState` (service_control.rs). -/
inductive ServiceState
  | Stopped
  | StartPending
  | StopPending
  | Running
  | ContinuePending
  | PausePending
  | Paused
  deriving DecidableEq, Repr

/-- The environment's answers for one watched service: whether
`open_service` succeeds, what `get_state` returns (`Option.none` is a
query failure), and whether `start` succeeds. -/
structure SvcBehavior where
  open_ok : Bool
  state_res : Option ServiceState
  start_ok : Bool
  deriving DecidableEq, Repr

/-- A service-manager call made by the pass.  `openSvc`/`queryState`/
`startSvc` carry the name of the watched service the handle belongs to,
the handle's number and (for `openSvc`) the requested access mask,
(for `queryState`) the state obtained, (for `startSvc`) the argument
list passed to `start`. -/
inductive SvcEvent
  | connect
  | openSvc (name : OsString) (perms : Nat) (handle : Nat)
  | queryState (name : OsString) (handle : Nat) (state : ServiceState)
  | startSvc (name : OsString) (handle : Nat) (args : List OsString)
  deriving DecidableEq, Repr

/-- Discriminator for `startSvc` events. -/
def SvcEvent.is_start : SvcEvent → Bool
  | .startSvc _ _ _ => true
  | _ => false

/-- Whether the pass ran to completion or died on a `log_panic!`. -/
inductive IterOutcome
  | completed
  | fatal
  deriving DecidableEq, Repr

/-- The `for name in &names` loop of `run`: open each service with
`QUERY_STATUS | STOP` access, query its state, and start it (with an
empty argument list, on the handle just opened) exactly when the state is
`Stopped`.  Any open/query/start failure is a `log_panic!` that ends the
pass at once. -/
def ensure_services (svc : OsString → SvcBehavior) :
    List OsString → Nat → List SvcEvent × IterOutcome
  | [], _ => ([], IterOutcome.completed)
  | n :: rest, h =>
    if (svc n).open_ok then
      match (svc n).state_res with
      | some st =>
        if st = ServiceState.Stopped then
          if (svc n).start_ok then
            (SvcEvent.openSvc n service_perms h ::
               SvcEvent.queryState n h st ::
               SvcEvent.startSvc n h [] ::
               (ensure_services svc rest (h + 1)).1,
             (ensure_services svc rest (h + 1)).2)
          else
            ([SvcEvent.openSvc n service_perms h,
              SvcEvent.queryState n h st,
              SvcEvent.startSvc n h []], IterOutcome.fatal)
        else
          (SvcEvent.openSvc n service_perms h ::
             SvcEvent.queryState n h st ::
             (ensure_services svc rest (h + 1)).1,
           (ensure_services svc rest (h + 1)).2)
      | Option.none => ([SvcEvent.openSvc n service_perms h], IterOutcome.fatal)
    else ([SvcEvent.openSvc n service_perms h], IterOutcome.fatal)

/-- The `EnsuringServices` part of one `run` loop iteration
(main.rs lines 98–137): read `ServicesExpectedRunning`; a failed read
(`read_run_services = Option.none`) or a value that is not a
`MultiString` is a `log_panic!` before any service-manager call;
otherwise connect to the service control manager (a failed connect is
fatal after the attempt) and run the per-service loop. -/
def check_services (read_run_services : Option RegistryValue)
    (connect_ok : Bool) (svc : OsString → SvcBehavior) :
    List SvcEvent × IterOutcome :=
  match read_run_services with
  | some (RegistryValue.multiString names) =>
      if connect_ok then
        (SvcEvent.connect :: (ensure_services svc names 0).1,
         (ensure_services svc names 0).2)
      else ([SvcEvent.connect], IterOutcome.fatal)
  | some _ => ([], IterOutcome.fatal)
  | Option.none => ([], IterOutcome.fatal)

/-- Specification-side transcription of the `EnsuringServices → Sleeping`
transition: for each name in the watch list, in list order, one open with
`QUERY_STATUS | STOP` access, one state query, and — exactly when the
queried state is `Stopped` — one start command with an empty argument
list on that same handle.  Duplicate names each get their own open/query
(and possibly start): occurrences are processed independently. -/
def spec_ensure_trace (state_of : OsString → ServiceState) :
    List OsString → Nat → List SvcEvent
  | [], _ => []
  | n :: rest, h =>
    SvcEvent.openSvc n service_perms h ::
      SvcEvent.queryState n h (state_of n) ::
      ((if state_of n = ServiceState.Stopped
        then [SvcEvent.startSvc n h []] else []) ++
       spec_ensure_trace state_of rest (h + 1))

/-- The watch-list name `Alpha`, as UTF-16 code units. -/
def alpha_name : OsString := [65, 108, 112, 104, 97]

/-- The watch-list name `Beta`, as UTF-16 code units. -/
def beta_name : OsString := [66, 101, 116, 97]

/-- The environment of §8's supervision-loop example: `Alpha` reports
`Running`, `Beta` reports `Stopped`. -/
def alpha_beta_state (n : OsString) : ServiceState :=
  if n = beta_name then ServiceState.Stopped else ServiceState.Running

/-- Service behaviour for the `Alpha`/`Beta` example: every open, query
and start succeeds. -/
def alpha_beta_svc (n : OsString) : SvcBehavior :=
  { open_ok := true, state_res := some (alpha_beta_state n), start_ok := true }

/-- A service environment in which every service is `Stopped` and every
call succeeds (used to exhibit concrete traces). -/
def all_stopped_svc (_n : OsString) : SvcBehavior :=
  { open_ok := true, state_res := some ServiceState.Stopped, start_ok := true }

/-! ## Theorems: the cancellation primitive (claims C3, C7, C8) -/

/-- Helper: from a state whose flag is set, the flag stays set and every
`wait` in the sequence returns immediately with `wants_to_stop = true`. -/
theorem run_clock_stopped_invariant (ops : List ClockOp) :
    ∀ ws : WaitStopper, ws.mutex.wants_to_stop = true →
      (run_clock ws ops).1.mutex.wants_to_stop = true ∧
      ∀ o ∈ (run_clock ws ops).2,
        o.result.wants_to_stop = true ∧ o.elapsed = 0 := by
  induction ops with
  | nil => intro ws h; simp [run_clock, h]
  | cons op rest ih =>
    intro ws h
    cases op with
    | stop =>
      simpa [run_clock, WaitStopper.stop] using
        ih ws.stop (by simp [WaitStopper.stop, StopResult.new_wants_to_stop])
    | wait t d w =>
      have hwait : ws.wait_until_stop_timeout t d w =
          ({ result := ws.mutex, elapsed := 0 }, ws) := by
        simp [WaitStopper.wait_until_stop_timeout, h]
      rcases ih ws h with ⟨hflag, houts⟩
      refine ⟨?_, ?_⟩
      · simpa [run_clock, hwait] using hflag
      · intro o ho
        simp only [run_clock, hwait, List.mem_cons] at ho
        rcases ho with rfl | ho
        · exact ⟨h, rfl⟩
        · exact houts o ho

/-- C3.  Once `stop()` has been called on a `WaitStopper` instance, every
later `wait` call on it — whatever sequence of further `stop` and `wait`
operations the two threads perform — returns immediately (elapsed time
`0`, so it never waits out its timeout) with `wants_to_stop = true`, and
the internal flag never resets: it is still set after the whole sequence,
so no later `wait` can observe `wants_to_stop = false`. -/
theorem stop_flag_never_resets (ws0 : WaitStopper) (ops : List ClockOp) :
    (run_clock ws0.stop ops).1.mutex.wants_to_stop = true ∧
    ∀ o ∈ (run_clock ws0.stop ops).2,
      o.result.wants_to_stop = true ∧ o.elapsed = 0 :=
  run_clock_stopped_invariant ops ws0.stop
    (by simp [WaitStopper.stop, StopResult.new_wants_to_stop])

/-- Witness for C3: after a `stop()`, a `wait` with timeout 5 notified at
instant 3 still returns `wants_to_stop = true` after 0 elapsed time. -/
theorem stop_flag_never_resets_witness :
    ({ result := { wants_to_stop := true }, elapsed := 0 } : WaitOutcome) ∈
      (run_clock (WaitStopper.new.stop) [ClockOp.wait 5 false 3]).2 ∧
    ({ result := { wants_to_stop := true }, elapsed := 0 } : WaitOutcome).result.wants_to_stop
        = true ∧
    ({ result := { wants_to_stop := true }, elapsed := 0 } : WaitOutcome).elapsed = 0 :=
  ⟨by decide,
   (stop_flag_never_resets WaitStopper.new [ClockOp.wait 5 false 3]).2
     { result := { wants_to_stop := true }, elapsed := 0 } (by decide)⟩

/-- C7.  A `wait(timeout)` call blocks until a stop lands or the timeout
elapses and in no other case (the elapsed time is `0` on the immediate
path and otherwise the notification instant capped by the timeout, or the
full timeout); its result reports `wants_to_stop = true` exactly when a
`stop()` has been called by the time it returns (it equals the flag state
at return, and equals "stop was called before or during the wait"); and
when a stop was already requested before the call it returns immediately
with `wants_to_stop = true`. -/
theorem wait_reports_stop_exactly (ws : WaitStopper) (timeout : Nat)
    (stop_during : Bool) (wake_elapsed : Nat) :
    ((ws.wait_until_stop_timeout timeout stop_during wake_elapsed).1.result.wants_to_stop
        = (ws.mutex.wants_to_stop || stop_during)) ∧
    ((ws.wait_until_stop_timeout timeout stop_during wake_elapsed).1.result
        = (ws.wait_until_stop_timeout timeout stop_during wake_elapsed).2.mutex) ∧
    ((ws.wait_until_stop_timeout timeout stop_during wake_elapsed).1.elapsed ≤ timeout) ∧
    (ws.mutex.wants_to_stop = true →
      (ws.wait_until_stop_timeout timeout stop_during wake_elapsed).1 =
        { result := StopResult.new_wants_to_stop, elapsed := 0 }) ∧
    (ws.mutex.wants_to_stop = false → stop_during = false →
      (ws.wait_until_stop_timeout timeout stop_during wake_elapsed).1.elapsed = timeout) := by
  cases hws : ws.mutex.wants_to_stop with
  | true =>
    have hmux : ws.mutex = StopResult.new_wants_to_stop := by
      cases ws with
      | mk m => cases m with
        | mk b =>
          simp only [StopResult.wants_to_stop] at hws
          simp [hws, StopResult.new_wants_to_stop]
    refine ⟨?_, ?_, ?_, ?_, ?_⟩ <;>
      simp [WaitStopper.wait_until_stop_timeout, hws, hmux,
        StopResult.new_wants_to_stop]
  | false =>
    cases stop_during with
    | true =>
      refine ⟨?_, ?_, ?_, ?_, ?_⟩ <;>
        simp [WaitStopper.wait_until_stop_timeout, hws]
    | false =>
      refine ⟨?_, ?_, ?_, ?_, ?_⟩ <;>
        simp [WaitStopper.wait_until_stop_timeout, hws]

/-- Witness for C7: a wait on an already-stopped instance returns
immediately with the stop reported; a wait interrupted by a concurrent
stop reports the stop. -/
theorem wait_reports_stop_exactly_witness :
    ((WaitStopper.new.stop.wait_until_stop_timeout 5 false 2).1 =
      { result := StopResult.new_wants_to_stop, elapsed := 0 }) ∧
    ((WaitStopper.new.wait_until_stop_timeout 5 true 2).1.result.wants_to_stop
      = (false || true)) :=
  ⟨(wait_reports_stop_exactly WaitStopper.new.stop 5 false 2).2.2.2.1 rfl,
   (wait_reports_stop_exactly WaitStopper.new 5 true 2).1⟩

/-- C8.  Without a clock instance (`stopper = Option.none`, the
run-once-without-external-control mode), every wait is an unconditional
sleep for the full timeout that reports `wants_to_stop = false`, for every
timeout and whatever the environment does — there is no way to make it
report `wants_to_stop = true`. -/
theorem wait_opt_none_sleeps_full_timeout (timeout : Nat)
    (stop_during : Bool) (wake_elapsed : Nat) :
    WaitStopper.wait_until_stop_timeout_opt Option.none timeout stop_during wake_elapsed =
      { result := { wants_to_stop := false }, elapsed := timeout } :=
  rfl

/-! ## Theorems: the registry value codec (claims C2, C4, C5, C6) -/

/-- Helper: serialising units to bytes doubles the length. -/
theorem flatMap_u16_length (ws : List Nat) :
    (ws.flatMap u16_to_ne_bytes).length = 2 * ws.length := by
  induction ws with
  | nil => rfl
  | cons w ws ih =>
    simp only [List.flatMap_cons, u16_to_ne_bytes, List.length_append,
      List.length_cons, List.length_nil, ih]
    omega

/-- Helper: re-pairing the serialised bytes recovers the unit sequence,
for units that fit in 16 bits. -/
theorem bytes_to_words_flatMap (ws : List Nat) (h : ∀ w ∈ ws, w < 65536) :
    bytes_to_words (ws.flatMap u16_to_ne_bytes) = ws := by
  induction ws with
  | nil => rfl
  | cons w ws ih =>
    have hw : w < 65536 := h w (List.mem_cons_self _ _)
    have hrest := ih (fun x hx => h x (List.mem_cons_of_mem _ hx))
    show bytes_to_words (w % 256 :: w / 256 % 256 :: ws.flatMap u16_to_ne_bytes)
        = w :: ws
    rw [bytes_to_words, hrest]
    congr 1
    omega

/-- Helper: `bytes_to_os_string` undoes `os_str_to_bytes`. -/
theorem bytes_to_os_string_round (s : OsString) (h : ∀ w ∈ s, w < 65536) :
    bytes_to_os_string (os_str_to_bytes s) = some s := by
  have hall : ∀ w ∈ s ++ [0], w < 65536 := by
    intro w hw
    rcases List.mem_append.mp hw with h1 | h1
    · exact h w h1
    · simp only [List.mem_singleton] at h1; omega
  unfold bytes_to_os_string os_str_to_bytes
  rw [if_neg (by rw [flatMap_u16_length]; omega)]
  rw [bytes_to_words_flatMap _ hall]
  simp [List.getLast?_concat, List.dropLast_concat]

/-- Helper: little-endian `u32` round trip. -/
theorem u32_le_round (dw : Nat) (h : dw < 4294967296) :
    u32_from_le_bytes (u32_to_le_bytes dw) = some dw := by
  simp only [u32_to_le_bytes, u32_from_le_bytes, Option.some.injEq]
  omega

/-- Helper: big-endian `u32` round trip. -/
theorem u32_be_round (dw : Nat) (h : dw < 4294967296) :
    u32_from_be_bytes (u32_to_be_bytes dw) = some dw := by
  simp only [u32_to_be_bytes, u32_from_be_bytes, Option.some.injEq]
  omega

/-- Helper: little-endian `u64` round trip. -/
theorem u64_le_round (qw : Nat) (h : qw < 18446744073709551616) :
    u64_from_le_bytes (u64_to_le_bytes qw) = some qw := by
  simp only [u64_to_le_bytes, u64_from_le_bytes, Option.some.injEq]
  omega

/-- Helper: on a list of valid elements the `MultiString` encoding loop
produces each element followed by one separator. -/
theorem multi_string_words_eq (ss : List OsString)
    (h : ∀ s ∈ ss, s ≠ [] ∧ 0 ∉ s) :
    multi_string_words ss = some (ss.flatMap (fun s => s ++ [0])) := by
  induction ss with
  | nil => rfl
  | cons s rest ih =>
    obtain ⟨hne, hnz⟩ := h s (List.mem_cons_self _ _)
    rw [multi_string_words, if_neg hnz,
      if_neg (by simpa using hne),
      ih (fun x hx => h x (List.mem_cons_of_mem _ hx))]
    simp

/-- Helper: splitting a unit sequence that starts with a NUL-free piece
followed by a separator peels off exactly that piece. -/
theorem split_on_zero_append (s t : List Nat) (h : 0 ∉ s) :
    split_on_zero (s ++ 0 :: t) = s :: split_on_zero t := by
  induction s with
  | nil => simp [split_on_zero]
  | cons w s ih =>
    have hw : ¬ w = 0 := by
      intro e; exact h (by simp [e])
    have hs : 0 ∉ s := fun hx => h (List.mem_cons_of_mem _ hx)
    have ih' : split_on_zero (s.append (0 :: t)) = s :: split_on_zero t := ih hs
    simp only [List.cons_append, split_on_zero, if_neg hw, ih']

/-- Helper: splitting a NUL-free piece yields just that piece. -/
theorem split_on_zero_no_zero (s : List Nat) (h : 0 ∉ s) :
    split_on_zero s = [s] := by
  induction s with
  | nil => rfl
  | cons w s ih =>
    have hw : ¬ w = 0 := by
      intro e; exact h (by simp [e])
    have hs : 0 ∉ s := fun hx => h (List.mem_cons_of_mem _ hx)
    simp only [split_on_zero, if_neg hw, ih hs]

/-- Helper: decoding the concatenation produced by the `MultiString`
encoder (elements each followed by a separator, plus the final
terminator) recovers the element list. -/
theorem split_take (ss : List OsString) (h : ∀ s ∈ ss, s ≠ [] ∧ 0 ∉ s) :
    take_nonempty (split_on_zero
      (ss.flatMap (fun s => s ++ [0]) ++ [0])) = ss := by
  induction ss with
  | nil => rfl
  | cons s rest ih =>
    obtain ⟨hne, hnz⟩ := h s (List.mem_cons_self _ _)
    have ihr := ih (fun x hx => h x (List.mem_cons_of_mem _ hx))
    have hassoc : (s :: rest).flatMap (fun s => s ++ [0]) ++ [0]
        = s ++ 0 :: (rest.flatMap (fun s => s ++ [0]) ++ [0]) := by
      simp [List.flatMap_cons, List.append_assoc]
    rw [hassoc, split_on_zero_append _ _ hnz]
    simp only [take_nonempty]
    rw [if_neg (by simpa using hne), ihr]

/-- C2.  For every well-formed `RegistryValue` that is not an
`ExpandString`, decoding the bytes produced by encoding it, under its own
type tag, yields the value again — whatever the environment-expansion
operation does.  This covers the opaque-structured variants (where encode
and decode are the identity on the byte payload) and valid
`MultiString`s (elements non-empty and NUL-free), which round-trip to the
same ordered list. -/
theorem registry_round_trip (expand_env : OsString → Option OsString)
    (v : RegistryValue) (hwf : v.wellFormed = true)
    (hex : v.is_expand_string = false) :
    v.to_bytes.bind (RegistryValue.decode_raw expand_env v.to_reg_value_type)
      = some v := by
  cases v with
  | none bs =>
      simp [RegistryValue.to_bytes, RegistryValue.to_reg_value_type,
        RegistryValue.decode_raw, REG_NONE]
  | string s =>
      have hs : ∀ w ∈ s, w < 65536 := by
        simpa [RegistryValue.wellFormed, osstr_wf, List.all_eq_true] using hwf
      simp [RegistryValue.to_bytes, RegistryValue.to_reg_value_type,
        RegistryValue.decode_raw, REG_NONE, REG_SZ,
        bytes_to_os_string_round s hs]
  | expandString unexpanded expanded =>
      simp [RegistryValue.is_expand_string] at hex
  | binary bs =>
      simp [RegistryValue.to_bytes, RegistryValue.to_reg_value_type,
        RegistryValue.decode_raw, REG_NONE, REG_SZ, REG_EXPAND_SZ, REG_BINARY]
  | dword dw =>
      have hdw : dw < 4294967296 := by
        simpa [RegistryValue.wellFormed] using hwf
      simp [RegistryValue.to_bytes, RegistryValue.to_reg_value_type,
        RegistryValue.decode_raw, REG_NONE, REG_SZ, REG_EXPAND_SZ, REG_BINARY,
        REG_DWORD, u32_le_round dw hdw]
  | dwordBigEndian dw =>
      have hdw : dw < 4294967296 := by
        simpa [RegistryValue.wellFormed] using hwf
      simp [RegistryValue.to_bytes, RegistryValue.to_reg_value_type,
        RegistryValue.decode_raw, REG_NONE, REG_SZ, REG_EXPAND_SZ, REG_BINARY,
        REG_DWORD, REG_DWORD_BIG_ENDIAN, u32_be_round dw hdw]
  | link s =>
      have hs : ∀ w ∈ s, w < 65536 := by
        simpa [RegistryValue.wellFormed, osstr_wf, List.all_eq_true] using hwf
      simp [RegistryValue.to_bytes, RegistryValue.to_reg_value_type,
        RegistryValue.decode_raw, REG_NONE, REG_SZ, REG_EXPAND_SZ, REG_BINARY,
        REG_DWORD, REG_DWORD_BIG_ENDIAN, REG_LINK,
        bytes_to_os_string_round s hs]
  | multiString ss =>
      have hall : ∀ s ∈ ss, (∀ w ∈ s, w < 65536) ∧ s ≠ [] ∧ 0 ∉ s := by
        have hx : ∀ x ∈ ss, (osstr_wf x = true ∧ ¬ x = []) ∧ 0 ∉ x := by
          simpa [RegistryValue.wellFormed] using hwf
        intro s hsm
        obtain ⟨⟨hwfs, hne⟩, hnz⟩ := hx s hsm
        refine ⟨?_, hne, hnz⟩
        simpa [osstr_wf, List.all_eq_true] using hwfs
      have hargs : ∀ s ∈ ss, s ≠ [] ∧ 0 ∉ s :=
        fun s hs => ⟨(hall s hs).2.1, (hall s hs).2.2⟩
      have hunits : ∀ w ∈ ss.flatMap (fun s => s ++ [0]) ++ [0], w < 65536 := by
        intro w hw
        rcases List.mem_append.mp hw with h1 | h1
        · rcases List.mem_flatMap.mp h1 with ⟨s, hsm, hws⟩
          rcases List.mem_append.mp hws with h2 | h2
          · exact (hall s hsm).1 w h2
          · simp only [List.mem_singleton] at h2; omega
        · simp only [List.mem_singleton] at h1; omega
      have hdec : bytes_to_multi_os_string
          ((ss.flatMap (fun s => s ++ [0]) ++ [0]).flatMap u16_to_ne_bytes)
            = some ss := by
        unfold bytes_to_multi_os_string
        rw [if_neg (by rw [flatMap_u16_length]; omega)]
        rw [bytes_to_words_flatMap _ hunits, split_take ss hargs]
      have hwords := multi_string_words_eq ss hargs
      simpa [RegistryValue.to_bytes, RegistryValue.to_reg_value_type,
        RegistryValue.decode_raw, REG_NONE, REG_SZ, REG_EXPAND_SZ, REG_BINARY,
        REG_DWORD, REG_DWORD_BIG_ENDIAN, REG_LINK, REG_MULTI_SZ,
        hwords] using hdec
  | resourceList bs =>
      simp [RegistryValue.to_bytes, RegistryValue.to_reg_value_type,
        RegistryValue.decode_raw, REG_NONE, REG_SZ, REG_EXPAND_SZ, REG_BINARY,
        REG_DWORD, REG_DWORD_BIG_ENDIAN, REG_LINK, REG_MULTI_SZ,
        REG_RESOURCE_LIST]
  | fullResourceDescriptor bs =>
      simp [RegistryValue.to_bytes, RegistryValue.to_reg_value_type,
        RegistryValue.decode_raw, REG_NONE, REG_SZ, REG_EXPAND_SZ, REG_BINARY,
        REG_DWORD, REG_DWORD_BIG_ENDIAN, REG_LINK, REG_MULTI_SZ,
        REG_RESOURCE_LIST, REG_FULL_RESOURCE_DESCRIPTOR]
  | resourceRequirementsList bs =>
      simp [RegistryValue.to_bytes, RegistryValue.to_reg_value_type,
        RegistryValue.decode_raw, REG_NONE, REG_SZ, REG_EXPAND_SZ, REG_BINARY,
        REG_DWORD, REG_DWORD_BIG_ENDIAN, REG_LINK, REG_MULTI_SZ,
        REG_RESOURCE_LIST, REG_FULL_RESOURCE_DESCRIPTOR,
        REG_RESOURCE_REQUIREMENTS_LIST]
  | qword qw =>
      have hqw : qw < 18446744073709551616 := by
        simpa [RegistryValue.wellFormed] using hwf
      simp [RegistryValue.to_bytes, RegistryValue.to_reg_value_type,
        RegistryValue.decode_raw, REG_NONE, REG_SZ, REG_EXPAND_SZ, REG_BINARY,
        REG_DWORD, REG_DWORD_BIG_ENDIAN, REG_LINK, REG_MULTI_SZ,
        REG_RESOURCE_LIST, REG_FULL_RESOURCE_DESCRIPTOR,
        REG_RESOURCE_REQUIREMENTS_LIST, REG_QWORD, u64_le_round qw hqw]

/-- Witness for C2: the two-element list value round-trips concretely. -/
theorem registry_round_trip_witness :
    (RegistryValue.multiString [[115, 118, 99], [120]]).wellFormed = true ∧
    (RegistryValue.multiString [[115, 118, 99], [120]]).is_expand_string = false ∧
    (RegistryValue.multiString [[115, 118, 99], [120]]).to_bytes.bind
        (RegistryValue.decode_raw (fun _ => Option.none)
          (RegistryValue.multiString [[115, 118, 99], [120]]).to_reg_value_type)
      = some (RegistryValue.multiString [[115, 118, 99], [120]]) :=
  ⟨by decide, by decide,
   registry_round_trip (fun _ => Option.none)
     (RegistryValue.multiString [[115, 118, 99], [120]])
     (by decide) (by decide)⟩

/-- Helper: the `MultiString` encoding loop panics as soon as the list
contains an empty or NUL-carrying element, wherever it sits. -/
theorem multi_string_words_none (ss : List OsString)
    (h : ∃ s ∈ ss, s = [] ∨ 0 ∈ s) :
    multi_string_words ss = Option.none := by
  induction ss with
  | nil => simp at h
  | cons s rest ih =>
    rcases h with ⟨t, ht, hbad⟩
    rcases List.mem_cons.mp ht with rfl | ht
    · rcases hbad with rfl | hz
      · simp [multi_string_words]
      · simp [multi_string_words, hz]
    · by_cases hz : 0 ∈ s
      · simp [multi_string_words, hz]
      · by_cases hl : s.length = 0
        · simp [multi_string_words, hz, hl]
        · simp [multi_string_words, hz, hl, ih ⟨t, ht, hbad⟩]

/-- C4.  Encoding a `TextList` (`MultiString`) fails whenever any element
is the empty string or contains a NUL code unit; encoding the empty list
succeeds and produces the terminator-only representation (one
terminator code unit, i.e. the two bytes `[0, 0]`). -/
theorem textlist_encode_rejects (ss : List OsString)
    (h : ∃ s ∈ ss, s = [] ∨ 0 ∈ s) :
    (RegistryValue.multiString ss).to_bytes = Option.none ∧
    (RegistryValue.multiString []).to_bytes = some [0, 0] :=
  ⟨by simp [RegistryValue.to_bytes, multi_string_words_none ss h], by decide⟩

/-- Witness for C4: the spec's two rejected lists and the empty list. -/
theorem textlist_encode_rejects_witness :
    (∃ s ∈ ([[97], [], [98]] : List OsString), s = [] ∨ 0 ∈ s) ∧
    (RegistryValue.multiString [[97], [], [98]]).to_bytes = Option.none ∧
    (∃ s ∈ ([[97, 0, 98]] : List OsString), s = [] ∨ 0 ∈ s) ∧
    (RegistryValue.multiString [[97, 0, 98]]).to_bytes = Option.none ∧
    (RegistryValue.multiString []).to_bytes = some [0, 0] :=
  ⟨by decide,
   (textlist_encode_rejects [[97], [], [98]] (by decide)).1,
   by decide,
   (textlist_encode_rejects [[97, 0, 98]] (by decide)).1,
   (textlist_encode_rejects [[97, 0, 98]] (by decide)).2⟩

/-- Helper: a four-byte decode fails on any other length. -/
theorem u32_from_le_bytes_len (bs : List Nat) (h : bs.length ≠ 4) :
    u32_from_le_bytes bs = Option.none := by
  unfold u32_from_le_bytes
  split
  · simp_all
  · rfl

/-- Helper: a four-byte big-endian decode fails on any other length. -/
theorem u32_from_be_bytes_len (bs : List Nat) (h : bs.length ≠ 4) :
    u32_from_be_bytes bs = Option.none := by
  unfold u32_from_be_bytes
  split
  · simp_all
  · rfl

/-- Helper: an eight-byte decode fails on any other length. -/
theorem u64_from_le_bytes_len (bs : List Nat) (h : bs.length ≠ 8) :
    u64_from_le_bytes bs = Option.none := by
  unfold u64_from_le_bytes
  split
  · simp_all
  · rfl

/-- C5.  Decoding never silently truncates: a text-typed payload
(`REG_SZ`, `REG_EXPAND_SZ`, `REG_LINK`, `REG_MULTI_SZ`) of odd byte
length is a decode error, an `Integer32` payload whose length is not
exactly four bytes is a decode error (for both byte orders), an
`Integer64` payload whose length is not exactly eight bytes is a decode
error, and an unrecognized type tag (anything beyond `REG_QWORD`) is a
decode error. -/
theorem decode_length_errors (expand_env : OsString → Option OsString)
    (bs : List Nat) :
    (bs.length % 2 = 1 →
      RegistryValue.decode_raw expand_env REG_SZ bs = Option.none ∧
      RegistryValue.decode_raw expand_env REG_EXPAND_SZ bs = Option.none ∧
      RegistryValue.decode_raw expand_env REG_LINK bs = Option.none ∧
      RegistryValue.decode_raw expand_env REG_MULTI_SZ bs = Option.none) ∧
    (bs.length ≠ 4 →
      RegistryValue.decode_raw expand_env REG_DWORD bs = Option.none ∧
      RegistryValue.decode_raw expand_env REG_DWORD_BIG_ENDIAN bs = Option.none) ∧
    (bs.length ≠ 8 →
      RegistryValue.decode_raw expand_env REG_QWORD bs = Option.none) ∧
    (∀ tag, REG_QWORD < tag →
      RegistryValue.decode_raw expand_env tag bs = Option.none) := by
  refine ⟨?_, ?_, ?_, ?_⟩
  · intro hodd
    have hos : bytes_to_os_string bs = Option.none := by
      unfold bytes_to_os_string
      rw [if_pos (by omega)]
    have hms : bytes_to_multi_os_string bs = Option.none := by
      unfold bytes_to_multi_os_string
      rw [if_pos (by omega)]
    refine ⟨?_, ?_, ?_, ?_⟩ <;>
      simp [RegistryValue.decode_raw, REG_NONE, REG_SZ, REG_EXPAND_SZ,
        REG_BINARY, REG_DWORD, REG_DWORD_BIG_ENDIAN, REG_LINK, REG_MULTI_SZ,
        hos, hms]
  · intro h4
    constructor <;>
      simp [RegistryValue.decode_raw, REG_NONE, REG_SZ, REG_EXPAND_SZ,
        REG_BINARY, REG_DWORD, REG_DWORD_BIG_ENDIAN,
        u32_from_le_bytes_len bs h4, u32_from_be_bytes_len bs h4]
  · intro h8
    simp [RegistryValue.decode_raw, REG_NONE, REG_SZ, REG_EXPAND_SZ,
      REG_BINARY, REG_DWORD, REG_DWORD_BIG_ENDIAN, REG_LINK, REG_MULTI_SZ,
      REG_RESOURCE_LIST, REG_FULL_RESOURCE_DESCRIPTOR,
      REG_RESOURCE_REQUIREMENTS_LIST, REG_QWORD,
      u64_from_le_bytes_len bs h8]
  · intro tag htag
    have h11 : 11 < tag := htag
    unfold RegistryValue.decode_raw REG_NONE REG_SZ REG_EXPAND_SZ REG_BINARY
      REG_DWORD REG_DWORD_BIG_ENDIAN REG_LINK REG_MULTI_SZ REG_RESOURCE_LIST
      REG_FULL_RESOURCE_DESCRIPTOR REG_RESOURCE_REQUIREMENTS_LIST REG_QWORD
    repeat rw [if_neg (by omega)]

/-- Witness for C5: a three-byte payload is rejected under every
length-checked tag, and tag 12 is rejected outright. -/
theorem decode_length_errors_witness :
    (([1, 2, 3] : List Nat).length % 2 = 1) ∧
    RegistryValue.decode_raw (fun _ => Option.none) REG_SZ [1, 2, 3] = Option.none ∧
    RegistryValue.decode_raw (fun _ => Option.none) REG_DWORD [1, 2, 3] = Option.none ∧
    RegistryValue.decode_raw (fun _ => Option.none) REG_QWORD [1, 2, 3] = Option.none ∧
    RegistryValue.decode_raw (fun _ => Option.none) 12 [1, 2, 3] = Option.none :=
  ⟨by decide,
   ((decode_length_errors (fun _ => Option.none) [1, 2, 3]).1 (by decide)).1,
   ((decode_length_errors (fun _ => Option.none) [1, 2, 3]).2.1 (by decide)).1,
   (decode_length_errors (fun _ => Option.none) [1, 2, 3]).2.2.1 (by decide),
   (decode_length_errors (fun _ => Option.none) [1, 2, 3]).2.2.2 12 (by decide)⟩

/-- Helper: splitting always produces at least one piece. -/
theorem split_on_zero_ne_nil (ws : List Nat) : split_on_zero ws ≠ [] := by
  induction ws with
  | nil => simp [split_on_zero]
  | cons w rest ih =>
    simp only [split_on_zero]
    split
    · simp
    · cases hs : split_on_zero rest with
      | nil => simp
      | cons a l => simp

/-- Helper: no piece produced by splitting on NUL contains a NUL. -/
theorem mem_split_on_zero (ws : List Nat) :
    ∀ s ∈ split_on_zero ws, 0 ∉ s := by
  induction ws with
  | nil =>
    intro s hs
    simp only [split_on_zero, List.mem_singleton] at hs
    simp [hs]
  | cons w rest ih =>
    intro s hs
    simp only [split_on_zero] at hs
    by_cases hw : w = 0
    · rw [if_pos hw] at hs
      rcases List.mem_cons.mp hs with rfl | hs
      · simp
      · exact ih s hs
    · rw [if_neg hw] at hs
      cases hsp : split_on_zero rest with
      | nil => exact absurd hsp (split_on_zero_ne_nil rest)
      | cons a l =>
        rw [hsp] at hs
        rcases List.mem_cons.mp hs with rfl | hs
        · intro hmem
          rcases List.mem_cons.mp hmem with h0 | h0
          · exact hw h0.symm
          · exact ih a (by rw [hsp]; exact List.mem_cons_self _ _) h0
        · exact ih s (by rw [hsp]; exact List.mem_cons_of_mem _ hs)

/-- Helper: every collected piece comes from the split and is non-empty. -/
theorem mem_take_nonempty (l : List (List Nat)) :
    ∀ s ∈ take_nonempty l, s ∈ l ∧ s ≠ [] := by
  induction l with
  | nil => simp [take_nonempty]
  | cons a l ih =>
    intro s hs
    simp only [take_nonempty] at hs
    by_cases ha : a.length = 0
    · rw [if_pos ha] at hs
      simp at hs
    · rw [if_neg ha] at hs
      rcases List.mem_cons.mp hs with rfl | hs
      · exact ⟨List.mem_cons_self _ _, by
          intro e; rw [e] at ha; simp at ha⟩
      · rcases ih s hs with ⟨h1, h2⟩
        exact ⟨List.mem_cons_of_mem _ h1, h2⟩

/-- Helper: the segment taken up to the next terminator is NUL-free. -/
theorem takeWhile_zero_free (ws : List Nat) :
    0 ∉ ws.takeWhile (fun w => decide (w ≠ 0)) := by
  induction ws with
  | nil => simp
  | cons w rest ih =>
    by_cases hw : w = 0
    · simp [List.takeWhile_cons, hw]
    · simp only [List.takeWhile_cons, decide_eq_true_eq]
      rw [if_pos (by simpa using hw)]
      intro hmem
      rcases List.mem_cons.mp hmem with h0 | h0
      · exact hw h0.symm
      · exact ih h0

/-- Helper: the element on which the segment stopped is a terminator. -/
theorem dropWhile_zero_head (ws : List Nat) (w : Nat) (t : List Nat)
    (h : ws.dropWhile (fun w => decide (w ≠ 0)) = w :: t) : w = 0 := by
  induction ws with
  | nil => simp at h
  | cons a l ih =>
    by_cases ha : a = 0
    · rw [List.dropWhile_cons] at h
      rw [if_neg (by simpa using ha)] at h
      cases h
      exact ha
    · rw [List.dropWhile_cons] at h
      rw [if_pos (by simpa using ha)] at h
      exact ih h

/-- Helper: the spec-side collector ignores its fuel on empty input. -/
theorem spec_collect_fuel_nil (fuel : Nat) : spec_collect_fuel fuel [] = [] := by
  cases fuel with
  | zero => rfl
  | succ f => simp [spec_collect_fuel]

/-- Helper: dropping one past a prefix lands right after the separator. -/
theorem drop_len_succ_append (a : List Nat) (x : Nat) (b : List Nat) :
    (a ++ x :: b).drop (a.length + 1) = b := by
  induction a with
  | nil => simp
  | cons y a ih => simp only [List.cons_append, List.length_cons, List.drop_succ_cons, ih]

/-- Helper: with enough fuel, the spec-side segment collector computes
exactly the program's split-then-collect pipeline. -/
theorem spec_collect_fuel_eq (fuel : Nat) :
    ∀ ws : List Nat, ws.length ≤ fuel →
      spec_collect_fuel fuel ws = take_nonempty (split_on_zero ws) := by
  induction fuel with
  | zero =>
    intro ws h
    have hnil : ws = [] := List.length_eq_zero.mp (Nat.le_zero.mp h)
    subst hnil
    simp [spec_collect_fuel, split_on_zero, take_nonempty]
  | succ fuel ih =>
    intro ws h
    by_cases htw : (ws.takeWhile (fun w => decide (w ≠ 0))).length = 0
    · rw [spec_collect_fuel, if_pos htw]
      cases ws with
      | nil => simp [split_on_zero, take_nonempty]
      | cons w rest =>
        have hw : w = 0 := by
          by_contra hw
          rw [List.takeWhile_cons, if_pos (by simpa using hw)] at htw
          simp at htw
        subst hw
        simp [split_on_zero, take_nonempty]
    · obtain ⟨tw, htw_eq⟩ :
          ∃ tw, ws.takeWhile (fun w => decide (w ≠ 0)) = tw := ⟨_, rfl⟩
      have h0tw : 0 ∉ tw := htw_eq ▸ takeWhile_zero_free ws
      rw [htw_eq] at htw
      rw [spec_collect_fuel, if_neg (by rw [htw_eq]; exact htw), htw_eq]
      cases hdw : ws.dropWhile (fun w => decide (w ≠ 0)) with
      | nil =>
        have hws_eq : ws = tw := by
          rw [← htw_eq, ← List.append_nil (ws.takeWhile (fun w => decide (w ≠ 0))),
            ← hdw]
          exact (List.takeWhile_append_dropWhile _ _).symm
        have hdrop : ws.drop (tw.length + 1) = [] := by
          apply List.drop_eq_nil_of_le
          rw [hws_eq]
          omega
        rw [hdrop, spec_collect_fuel_nil]
        conv_rhs => rw [hws_eq]
        rw [split_on_zero_no_zero _ h0tw]
        simp only [take_nonempty]
        rw [if_neg htw]
      | cons w t =>
        have hw : w = 0 := dropWhile_zero_head ws w t hdw
        subst hw
        have hws_eq : ws = tw ++ 0 :: t := by
          rw [← htw_eq, ← hdw]
          exact (List.takeWhile_append_dropWhile _ _).symm
        have hdrop : ws.drop (tw.length + 1) = t := by
          rw [hws_eq]
          exact drop_len_succ_append _ _ _
        have hlen : t.length ≤ fuel := by
          have := congrArg List.length hws_eq
          simp only [List.length_append, List.length_cons] at this
          omega
        rw [hdrop, ih t hlen]
        conv_rhs => rw [hws_eq]
        rw [split_on_zero_append _ _ h0tw]
        simp only [take_nonempty]
        rw [if_neg htw]

/-- Helper: the spec-side collector equals the program's pipeline. -/
theorem spec_collect_eq (ws : List Nat) :
    spec_collect ws = take_nonempty (split_on_zero ws) :=
  spec_collect_fuel_eq ws.length ws (Nat.le_refl _)

/-- Counterexample to C6's parenthetical: there is no even-length payload
whose `TextList` decode contains an element that the `TextList` encoder
would reject — every decoded segment is non-empty and NUL-free, which is
exactly what the encoder demands, so "an element produced by decode may
later be one encode would reject" is false. -/
theorem textlist_decode_element_never_rejected :
    ¬ ∃ (bs : List Nat) (ss : List OsString) (s : OsString),
        bs.length % 2 = 0 ∧ bytes_to_multi_os_string bs = some ss ∧
        s ∈ ss ∧ (RegistryValue.multiString [s]).to_bytes = Option.none := by
  rintro ⟨bs, ss, s, heven, hdec, hmem, henc⟩
  have hss : take_nonempty (split_on_zero (bytes_to_words bs)) = ss := by
    unfold bytes_to_multi_os_string at hdec
    rw [if_neg (by omega)] at hdec
    exact Option.some.inj hdec
  rw [← hss] at hmem
  obtain ⟨hmem', hne⟩ := mem_take_nonempty _ s hmem
  have hnz : 0 ∉ s := mem_split_on_zero _ s hmem'
  have hwords : multi_string_words [s] = some (s ++ 0 :: []) := by
    rw [multi_string_words, if_neg hnz, if_neg (by simpa using hne)]
    rfl
  rw [RegistryValue.to_bytes, hwords] at henc
  simp at henc

/-- C6 (amended).  For every even-length byte payload, `TextList` decode
succeeds and splits the payload's 16-bit code units on terminator code
units, collecting segments in order and stopping at the first empty
segment (a double terminator marks the list end); segments are not
validated further at decode time — and indeed need no validation, since
every segment so produced is non-empty and NUL-free, hence one the
encoder accepts. -/
theorem textlist_decode_is_permissive (bs : List Nat)
    (h : bs.length % 2 = 0) :
    bytes_to_multi_os_string bs = some (spec_collect (bytes_to_words bs)) ∧
    ∀ s ∈ spec_collect (bytes_to_words bs),
      s ≠ [] ∧ 0 ∉ s ∧
      (RegistryValue.multiString [s]).to_bytes ≠ Option.none := by
  constructor
  · unfold bytes_to_multi_os_string
    rw [if_neg (by omega), spec_collect_eq]
  · intro s hs
    rw [spec_collect_eq] at hs
    obtain ⟨hmem, hne⟩ := mem_take_nonempty _ s hs
    have hnz : 0 ∉ s := mem_split_on_zero _ s hmem
    refine ⟨hne, hnz, ?_⟩
    have hwords : multi_string_words [s] = some (s ++ 0 :: []) := by
      rw [multi_string_words, if_neg hnz, if_neg (by simpa using hne)]
      rfl
    rw [RegistryValue.to_bytes, hwords]
    simp

/-- Witness for C6: a concrete even-length payload (`A\0`, `\0`, `B\0` as
byte pairs) decodes to the two segments `[65]` and `[66]`, and the first
segment is accepted by the encoder. -/
theorem textlist_decode_is_permissive_witness :
    (([65, 0, 0, 0, 66, 0] : List Nat).length % 2 = 0) ∧
    bytes_to_multi_os_string [65, 0, 0, 0, 66, 0]
      = some (spec_collect (bytes_to_words [65, 0, 0, 0, 66, 0])) ∧
    (([65] : OsString) ∈ spec_collect (bytes_to_words [65, 0, 0, 0, 66, 0]) ∧
      (([65] : OsString) ≠ [] ∧ (0 : Nat) ∉ ([65] : OsString) ∧
       (RegistryValue.multiString [[65]]).to_bytes ≠ Option.none)) :=
  ⟨by decide,
   (textlist_decode_is_permissive [65, 0, 0, 0, 66, 0] (by decide)).1,
   by decide,
   (textlist_decode_is_permissive [65, 0, 0, 0, 66, 0] (by decide)).2
     [65] (by decide)⟩

/-! ## Theorems: the supervision pass (claims C1, C9, C10) -/

/-- C1.  When every open/query/start succeeds, the per-service loop
processes the watch list in list order — duplicates once per occurrence,
with no deduplication, since the statement quantifies over arbitrary
lists — and its trace is exactly the specification trace: for each name
one open and one state query, and a start command if and only if the
queried state is `Stopped`.  In particular, for the watch list
`[Alpha, Beta]` with `Alpha` reporting `Running` and `Beta` reporting
`Stopped`, exactly one start command is issued, targeting `Beta` only. -/
theorem ensure_services_start_iff_stopped (svc : OsString → SvcBehavior)
    (state_of : OsString → ServiceState) (names : List OsString)
    (h : ∀ n ∈ names, svc n =
      { open_ok := true, state_res := some (state_of n), start_ok := true }) :
    (∀ h0 : Nat, ensure_services svc names h0 =
      (spec_ensure_trace state_of names h0, IterOutcome.completed)) ∧
    ((ensure_services alpha_beta_svc [alpha_name, beta_name] 0).1.filter
        SvcEvent.is_start = [SvcEvent.startSvc beta_name 1 []]) := by
  constructor
  · induction names with
    | nil => intro h0; rfl
    | cons n rest ih =>
      intro h0
      have hn := h n (List.mem_cons_self _ _)
      have ihr := ih (fun x hx => h x (List.mem_cons_of_mem _ hx))
      by_cases hst : state_of n = ServiceState.Stopped <;>
        simp [ensure_services, spec_ensure_trace, hn, hst, ihr (h0 + 1)]
  · decide

/-- Witness for C1: the concrete `[Alpha, Beta]` run, with its full trace
and its single start command. -/
theorem ensure_services_start_iff_stopped_witness :
    ensure_services alpha_beta_svc [alpha_name, beta_name] 0 =
      (spec_ensure_trace alpha_beta_state [alpha_name, beta_name] 0,
       IterOutcome.completed) ∧
    (ensure_services alpha_beta_svc [alpha_name, beta_name] 0).1.filter
        SvcEvent.is_start = [SvcEvent.startSvc beta_name 1 []] :=
  ⟨(ensure_services_start_iff_stopped alpha_beta_svc alpha_beta_state
      [alpha_name, beta_name] (by decide)).1 0,
   (ensure_services_start_iff_stopped alpha_beta_svc alpha_beta_state
      [alpha_name, beta_name] (by decide)).2⟩

/-- C9.  If the `ServicesExpectedRunning` read fails (missing value or
any other read error) or yields a value that is not a `MultiString`, the
pass dies on `log_panic!` with an empty service-manager trace: no
connect, no open, no state query and no start command is issued before
termination. -/
theorem missing_watchlist_fatal_without_scm_calls
    (read_run_services : Option RegistryValue) (connect_ok : Bool)
    (svc : OsString → SvcBehavior)
    (h : ∀ names, read_run_services ≠ some (RegistryValue.multiString names)) :
    check_services read_run_services connect_ok svc
      = ([], IterOutcome.fatal) := by
  cases read_run_services with
  | none => rfl
  | some v =>
    cases v with
    | multiString names => exact absurd rfl (h names)
    | none bs => rfl
    | string s => rfl
    | expandString u e => rfl
    | binary bs => rfl
    | dword dw => rfl
    | dwordBigEndian dw => rfl
    | link s => rfl
    | resourceList bs => rfl
    | fullResourceDescriptor bs => rfl
    | resourceRequirementsList bs => rfl
    | qword qw => rfl

/-- Witness for C9: the missing-value case produces no trace at all. -/
theorem missing_watchlist_fatal_without_scm_calls_witness :
    check_services Option.none true all_stopped_svc
      = ([], IterOutcome.fatal) :=
  missing_watchlist_fatal_without_scm_calls Option.none true all_stopped_svc
    (fun _ hc => Option.noConfusion hc)

/-- Helper: every open in the per-service loop requests exactly the
`QUERY_STATUS | STOP` access mask. -/
theorem ensure_services_open_perms (svc : OsString → SvcBehavior)
    (names : List OsString) :
    ∀ (h0 : Nat) (n : OsString) (p hd : Nat),
      SvcEvent.openSvc n p hd ∈ (ensure_services svc names h0).1 →
        p = service_perms := by
  induction names with
  | nil =>
    intro h0 n p hd h
    simp [ensure_services] at h
  | cons m rest ih =>
    intro h0 n p hd h
    by_cases ho : (svc m).open_ok
    · cases hs : (svc m).state_res with
      | none =>
        simp only [ensure_services, if_pos ho, hs, List.mem_singleton,
          SvcEvent.openSvc.injEq] at h
        exact h.2.1
      | some st =>
        by_cases hst : st = ServiceState.Stopped
        · by_cases hstart : (svc m).start_ok
          · simp only [ensure_services, if_pos ho, hs, if_pos hst,
              if_pos hstart, List.mem_cons] at h
            rcases h with h | h | h | h
            · simp only [SvcEvent.openSvc.injEq] at h
              exact h.2.1
            · simp at h
            · simp at h
            · exact ih (h0 + 1) n p hd h
          · simp only [ensure_services, if_pos ho, hs, if_pos hst,
              if_neg hstart, List.mem_cons, List.mem_singleton] at h
            rcases h with h | h | h
            · simp only [SvcEvent.openSvc.injEq] at h
              exact h.2.1
            · simp at h
            · simp at h
        · simp only [ensure_services, if_pos ho, hs, if_neg hst,
            List.mem_cons] at h
          rcases h with h | h | h
          · simp only [SvcEvent.openSvc.injEq] at h
            exact h.2.1
          · simp at h
          · exact ih (h0 + 1) n p hd h
    · simp only [ensure_services, if_neg ho, List.mem_singleton,
        SvcEvent.openSvc.injEq] at h
      exact h.2.1

/-- Helper: every start in the per-service loop carries an empty argument
list and is issued on the handle that was opened, with the
`QUERY_STATUS | STOP` mask, for that same occurrence. -/
theorem ensure_services_start_on_open_handle (svc : OsString → SvcBehavior)
    (names : List OsString) :
    ∀ (h0 : Nat) (n : OsString) (hd : Nat) (args : List OsString),
      SvcEvent.startSvc n hd args ∈ (ensure_services svc names h0).1 →
        args = [] ∧
        SvcEvent.openSvc n service_perms hd ∈ (ensure_services svc names h0).1 := by
  induction names with
  | nil =>
    intro h0 n hd args h
    simp [ensure_services] at h
  | cons m rest ih =>
    intro h0 n hd args h
    by_cases ho : (svc m).open_ok
    · cases hs : (svc m).state_res with
      | none =>
        simp only [ensure_services, if_pos ho, hs, List.mem_singleton] at h
        simp at h
      | some st =>
        by_cases hst : st = ServiceState.Stopped
        · by_cases hstart : (svc m).start_ok
          · simp only [ensure_services, if_pos ho, hs, if_pos hst,
              if_pos hstart, List.mem_cons] at h ⊢
            rcases h with h | h | h | h
            · simp at h
            · simp at h
            · simp only [SvcEvent.startSvc.injEq] at h
              obtain ⟨rfl, rfl, rfl⟩ := h
              exact ⟨rfl, Or.inl rfl⟩
            · obtain ⟨ha, hm⟩ := ih (h0 + 1) n hd args h
              exact ⟨ha, Or.inr (Or.inr (Or.inr hm))⟩
          · simp only [ensure_services, if_pos ho, hs, if_pos hst,
              if_neg hstart, List.mem_cons, List.mem_singleton] at h ⊢
            rcases h with h | h | h | h
            · simp at h
            · simp at h
            · simp only [SvcEvent.startSvc.injEq] at h
              obtain ⟨rfl, rfl, rfl⟩ := h
              exact ⟨rfl, Or.inl rfl⟩
            · simp at h
        · simp only [ensure_services, if_pos ho, hs, if_neg hst,
            List.mem_cons] at h ⊢
          rcases h with h | h | h
          · simp at h
          · simp at h
          · obtain ⟨ha, hm⟩ := ih (h0 + 1) n hd args h
            exact ⟨ha, Or.inr (Or.inr hm)⟩
    · simp only [ensure_services, if_neg ho, List.mem_singleton] at h
      simp at h

/-- C10.  In a supervision pass, every service handle is opened
requesting exactly the `QUERY_STATUS | STOP` access rights — a mask that
does not contain the `START` access right — and every start command is
issued with an empty argument list on the handle opened, with that mask,
for the same watch-list occurrence. -/
theorem pass_open_access_and_start_handle
    (read_run_services : Option RegistryValue) (connect_ok : Bool)
    (svc : OsString → SvcBehavior) :
    (∀ (n : OsString) (p hd : Nat),
      SvcEvent.openSvc n p hd ∈ (check_services read_run_services connect_ok svc).1 →
        p = service_perms ∧ p &&& SERVICE_START = 0) ∧
    (∀ (n : OsString) (hd : Nat) (args : List OsString),
      SvcEvent.startSvc n hd args ∈ (check_services read_run_services connect_ok svc).1 →
        args = [] ∧
        SvcEvent.openSvc n service_perms hd
          ∈ (check_services read_run_services connect_ok svc).1) := by
  cases read_run_services with
  | none => simp [check_services]
  | some v =>
    cases v
    case multiString names =>
      cases connect_ok with
      | false =>
        constructor
        · intro n p hd h
          simp [check_services] at h
        · intro n hd args h
          simp [check_services] at h
      | true =>
        have hcs : check_services (some (RegistryValue.multiString names)) true svc
            = (SvcEvent.connect :: (ensure_services svc names 0).1,
               (ensure_services svc names 0).2) := by
          simp [check_services]
        constructor
        · intro n p hd h
          rw [hcs] at h
          rcases List.mem_cons.mp h with h | h
          · simp at h
          · have hp := ensure_services_open_perms svc names 0 n p hd h
            subst hp
            exact ⟨rfl, by decide⟩
        · intro n hd args h
          rw [hcs] at h
          rcases List.mem_cons.mp h with h | h
          · simp at h
          · obtain ⟨ha, hm⟩ :=
              ensure_services_start_on_open_handle svc names 0 n hd args h
            refine ⟨ha, ?_⟩
            rw [hcs]
            exact List.mem_cons_of_mem _ hm
    all_goals simp [check_services]

/-- Witness for C10: in a one-service pass whose service is stopped, the
start command's handle is the one opened with `QUERY_STATUS | STOP`. -/
theorem pass_open_access_and_start_handle_witness :
    (([] : List OsString) = [] ∧
      SvcEvent.openSvc [88] service_perms 0 ∈
        (check_services (some (RegistryValue.multiString [[88]])) true
          all_stopped_svc).1) ∧
    (service_perms = service_perms ∧ service_perms &&& SERVICE_START = 0) :=
  ⟨(pass_open_access_and_start_handle
      (some (RegistryValue.multiString [[88]])) true all_stopped_svc).2
        [88] 0 [] (by decide),
   (pass_open_access_and_start_handle
      (some (RegistryValue.multiString [[88]])) true all_stopped_svc).1
        [88] service_perms 0 (by decide)⟩
